import Mathlib

/-!
Verification of the PumpFunds recurring-investment scheduling and
trade-replication engine.

The definitions below are a shallow embedding of the relevant server
code: the SIP scheduler service (functions processSIPInvestments,
processIndividualSIP, monitorTraderWallets, monitorFundTraderWallets,
cleanupOldTrades) and the investment routes (create, pause, resume).
Timestamps are modelled as integers (milliseconds since the Unix
epoch), numeric amounts as rationals, and each SQL statement as a pure
transformation of an in-memory relational state.  Randomness (mock
transaction signatures, mock trade sizes, activity coin flips) is
modelled by explicit oracle parameters.  Statement-level failures that
the schema of the repository makes certain are part of the model: the
pause and resume UPDATE statements name an updated_at column that no
migration ever creates, so the store rejects them (undefined column)
before touching any row, and the lumpsum branch of the create route
inserts into trade_replications without tx_signature, a column every
schema variant declares TEXT NOT NULL with no default, so that INSERT
is always rejected as well.
-/

namespace PumpFunds

/-- Investment frequency values admitted by the CHECK constraint on
investments.frequency. -/
inductive Frequency
  | daily
  | weekly
  | monthly
deriving DecidableEq

/-- Investment type values: the source encodes recurring investments as
the string sip and one-time investments as lumpsum. -/
inductive InvestmentType
  | sip
  | lumpsum
deriving DecidableEq

/-- Investment lifecycle status values. -/
inductive InvestmentStatus
  | active
  | paused
  | cancelled
deriving DecidableEq

/-- Fund lifecycle status values. -/
inductive FundStatus
  | active
  | paused
  | inactive
deriving DecidableEq

/-- Values of the trade_replications.type column used by the code. -/
inductive TradeKind
  | sip_execution
  | trade_replication
  | investment
deriving DecidableEq

/-- Trade replication status values. -/
inductive TradeStatus
  | pending
  | completed
  | failed
deriving DecidableEq

/-- Buy or sell direction of a replicated trade. -/
inductive TradeDirection
  | buy
  | sell
deriving DecidableEq

/-- A row of the users table (only the claim-relevant columns). -/
structure User where
  id : Nat
  solanaWalletPubkey : String
deriving DecidableEq

/-- A row of the funds table (only the claim-relevant columns). -/
structure Fund where
  id : Nat
  name : String
  traderWallet : Option String
  minInvestment : ℚ
  maxInvestment : Option ℚ
  status : FundStatus
deriving DecidableEq

/-- A row of the investments table. -/
structure Investment where
  id : Nat
  userId : Nat
  fundId : Nat
  type : InvestmentType
  amount : ℚ
  frequency : Option Frequency
  status : InvestmentStatus
  nextExecutionDate : Option Int
deriving DecidableEq

/-- A row of the trade_replications table.  The lumpsum creation path
inserts no tx_signature, hence the Option type of that field. -/
structure TradeReplication where
  investmentId : Nat
  fundId : Nat
  amount : ℚ
  type : TradeKind
  status : TradeStatus
  txSignature : Option String
  tradeType : Option TradeDirection
  executedAt : Int
deriving DecidableEq

/-- The relational store: the four tables the scheduler and the
investment routes read and write. -/
structure DB where
  users : List User
  funds : List Fund
  investments : List Investment
  tradeReplications : List TradeReplication
deriving DecidableEq

/-- Primary-key well-formedness: the id columns declared SERIAL PRIMARY
KEY hold pairwise distinct values. -/
def WF (db : DB) : Prop :=
  (db.investments.map Investment.id).Nodup ∧
    (db.funds.map Fund.id).Nodup ∧ (db.users.map User.id).Nodup

instance (db : DB) : Decidable (WF db) := by
  unfold WF; infer_instance

def msPerDay : Int := 24 * 60 * 60 * 1000

/-- Milliseconds added to now by processIndividualSIP for each
frequency: 24 hours, 7 days, or a fixed 30 days. -/
def period : Frequency → Int
  | Frequency.daily => msPerDay
  | Frequency.weekly => 7 * msPerDay
  | Frequency.monthly => 30 * msPerDay

/-- The investment-only part of the WHERE clause of the due-SIP query:
type = sip, next_execution_date IS NOT NULL, next_execution_date <= NOW(),
status = active. -/
def dueInv (now : Int) (i : Investment) : Bool :=
  i.type == InvestmentType.sip &&
    (match i.nextExecutionDate with
      | some t => decide (t ≤ now)
      | none => false) &&
    i.status == InvestmentStatus.active

/-- The JOIN part of the due-SIP query: JOIN funds f ON i.fund_id = f.id
with f.status = active, and JOIN users u ON i.user_id = u.id. -/
def joinRows (db : DB) (i : Investment) : List (Investment × Fund × User) :=
  (db.funds.filter fun f => f.id == i.fundId && f.status == FundStatus.active).flatMap
    fun f => (db.users.filter fun u => u.id == i.userId).map fun u => (i, f, u)

/-- The due-SIP selector: the SELECT at the head of
processSIPInvestments, joining each due investment with its fund and
its owner.  It reads the store and performs no writes. -/
def selectDueSIPs (db : DB) (now : Int) : List (Investment × Fund × User) :=
  db.investments.flatMap fun i => if dueInv now i then joinRows db i else []

/-- The trade_replications row inserted by processIndividualSIP:
type sip_execution, status completed, trade_type buy, amount copied from
the investment, executed_at defaulted to NOW(). -/
def mkSipRow (inv : Investment) (sig : String) (now : Int) : TradeReplication :=
  { investmentId := inv.id
    fundId := inv.fundId
    amount := inv.amount
    type := TradeKind.sip_execution
    status := TradeStatus.completed
    txSignature := some sig
    tradeType := some TradeDirection.buy
    executedAt := now }

/-- Effect of UPDATE investments SET next_execution_date = next
WHERE id = invId. -/
def updateNextExec (invs : List Investment) (invId : Nat) (next : Int) :
    List Investment :=
  invs.map fun j =>
    if j.id == invId then { j with nextExecutionDate := some next } else j

/-- processIndividualSIP with an explicit failure model: each of the two
await query calls may throw (fu: the UPDATE throws, fi: the INSERT
throws).  The source wraps the two statements in no transaction, so the
effect of a statement that completed persists even when a later
statement throws; a thrown error leaves the function at that point. -/
def processIndividualSIPf (db : DB) (now : Int) (sig : String)
    (fu fi : Bool) (inv : Investment) : DB :=
  match inv.frequency with
  | none => db
  | some freq =>
    if fu then db
    else
      let db1 := { db with
        investments := updateNextExec db.investments inv.id (now + period freq) }
      if fi then db1
      else { db1 with
        tradeReplications := db1.tradeReplications ++ [mkSipRow inv sig now] }

/-- processIndividualSIP on the fault-free path: compute the next
execution date from the frequency (unknown frequency: log and return),
persist it, then insert the sip_execution ledger row. -/
def processIndividualSIP (db : DB) (now : Int) (sig : String)
    (inv : Investment) : DB :=
  processIndividualSIPf db now sig false false inv

/-- Per-item failure map for one scheduler cycle, indexed by the
position of the item in the selected batch. -/
structure SIPFaults where
  failUpdate : Nat → Bool
  failInsert : Nat → Bool

/-- The fault-free cycle. -/
def noFaults : SIPFaults := ⟨fun _ => false, fun _ => false⟩

/-- The for loop of processSIPInvestments over the selected batch, with
the per-item try/catch of the source: a throw inside one item is caught
at the item boundary and the loop continues with the next item.  The
counter k numbers the items for the signature and fault oracles. -/
def processSIPListf (now : Int) (sigs : Nat → String) (faults : SIPFaults)
    (k : Nat) (db : DB) : List (Investment × Fund × User) → DB
  | [] => db
  | r :: rest =>
      processSIPListf now sigs faults (k + 1)
        (processIndividualSIPf db now (sigs k)
          (faults.failUpdate k) (faults.failInsert k) r.1) rest

/-- One scheduler cycle under the failure model: select the due batch,
then process each item, catching per-item failures. -/
def processSIPInvestmentsf (db : DB) (now : Int) (sigs : Nat → String)
    (faults : SIPFaults) : DB :=
  processSIPListf now sigs faults 0 db (selectDueSIPs db now)

/-- One fault-free scheduler cycle: the SELECT of due SIP investments
followed by the processing loop. -/
def processSIPInvestments (db : DB) (now : Int) (sigs : Nat → String) : DB :=
  processSIPInvestmentsf db now sigs noFaults

/-- Two overlapping invocations of the selector and executor pair in
the same due cycle: each query call is atomic at the store, and the
source selects with a plain SELECT (no row lock, no versioning), so
both invocations can run their SELECT before either processes an item.
This definition is that interleaving. -/
def runTwoOverlappingCycles (db : DB) (now : Int)
    (sigs1 sigs2 : Nat → String) : DB :=
  let due1 := selectDueSIPs db now
  let due2 := selectDueSIPs db now
  let db1 := processSIPListf now sigs1 noFaults 0 db due1
  processSIPListf now sigs2 noFaults 0 db1 due2

/-- cleanupOldTrades: DELETE FROM trade_replications WHERE
executed_at < NOW() - INTERVAL 90 days RETURNING id, together with the
count of deleted rows that the source logs. -/
def cleanupOldTrades (db : DB) (now : Int) : DB × Nat :=
  let cutoff := now - 90 * msPerDay
  ({ db with
      tradeReplications :=
        db.tradeReplications.filter fun r => !decide (r.executedAt < cutoff) },
    (db.tradeReplications.filter fun r => decide (r.executedAt < cutoff)).length)

/-- A civil UTC date and time, as decomposed by the JavaScript Date
accessors.  The month is 1-based here (the JavaScript getMonth value
plus one); msOfDay is the time of day in milliseconds. -/
structure JSDate where
  year : Nat
  month : Nat
  day : Nat
  msOfDay : Int
deriving DecidableEq

/-- Days from the civil calendar origin used by the proleptic Gregorian
day-number algorithm, valid for year ≥ 1, 1 ≤ month ≤ 12, day ≥ 1.  A
day larger than the length of the month is allowed and rolls over into
the following months, exactly as the JavaScript MakeDay operation
normalizes an out-of-range day-of-month. -/
def daysFromCivil (y m d : Nat) : Nat :=
  let y1 := if m ≤ 2 then y - 1 else y
  let era := y1 / 400
  let yoe := y1 % 400
  let mp := (m + 9) % 12
  let doy := (153 * mp + 2) / 5 + d - 1
  era * 146097 + yoe * 365 + yoe / 4 - yoe / 100 + doy

/-- Day number of 1970-01-01, the Unix epoch. -/
def epochDays : Nat := daysFromCivil 1970 1 1

/-- Milliseconds since the Unix epoch of a civil UTC date and time: the
value the JavaScript Date constructor stores. -/
def toMs (dt : JSDate) : Int :=
  ((daysFromCivil dt.year dt.month dt.day : Int) - (epochDays : Int)) * msPerDay
    + dt.msOfDay

/-- The JavaScript steps nextMonth = new Date(now) followed by
nextMonth.setMonth(nextMonth.getMonth() + 1): the month index is
incremented with rollover into the next year, the day of month and time
of day are kept, and an out-of-range day of month rolls over into the
following month. -/
def jsAddOneMonth (dt : JSDate) : Int :=
  toMs { dt with
    year := if dt.month = 12 then dt.year + 1 else dt.year
    month := if dt.month = 12 then 1 else dt.month + 1 }

/-- getNextExecutionDate of the resume route: a 24 hour step for daily,
a 7 day step for weekly, one calendar month for monthly, and the
default switch case (a null frequency) falls back to the 24 hour
step. -/
def getNextExecutionDate (frequency : Option Frequency) (now : JSDate) : Int :=
  match frequency with
  | some Frequency.daily => toMs now + 24 * 60 * 60 * 1000
  | some Frequency.weekly => toMs now + 7 * 24 * 60 * 60 * 1000
  | some Frequency.monthly => jsAddOneMonth now
  | none => toMs now + 24 * 60 * 60 * 1000

/-- The WHERE clause of the pause route UPDATE: id = invId AND
user_id = userId AND type = sip AND status = active. -/
def pausePred (userId invId : Nat) (j : Investment) : Bool :=
  j.id == invId && j.userId == userId && j.type == InvestmentType.sip &&
    j.status == InvestmentStatus.active

/-- Columns of the investments table as created by the migrations of
the repository (create_investments_table in the setup scripts and the
columns added by fix_investments_table_schema).  No migration creates
an updated_at column. -/
def investmentsColumns : List String :=
  ["id", "user_id", "fund_id", "type", "amount", "frequency", "status",
    "next_execution_date", "created_at"]

/-- An UPDATE against the investments table first passes name
resolution: every column of its SET list must exist in the table.  A
statement naming an absent column is rejected by the store (undefined
column) and changes no row; otherwise the update applies to every row
matching the WHERE predicate. -/
def runInvestmentsUpdate (setCols : List String)
    (apply : Investment → Investment) (pred : Investment → Bool)
    (invs : List Investment) : Option (List Investment) :=
  if setCols.all (fun c => investmentsColumns.contains c) then
    some (invs.map fun j => if pred j then apply j else j)
  else none

/-- The pause route: UPDATE investments SET status = paused,
updated_at = NOW() under pausePred.  The SET list names updated_at,
which the schema lacks, so the statement is rejected, the catch of the
route answers 500 and the store is unchanged.  The Bool result records
whether the route reported success. -/
def pauseInvestment (db : DB) (userId invId : Nat) : DB × Bool :=
  match runInvestmentsUpdate ["status", "updated_at"]
      (fun j => { j with status := InvestmentStatus.paused })
      (pausePred userId invId) db.investments with
  | some invs =>
      ({ db with investments := invs },
        db.investments.any (pausePred userId invId))
  | none => (db, false)

/-- The WHERE clause of the resume route UPDATE: id = invId AND
user_id = userId AND type = sip AND status = paused. -/
def resumePred (userId invId : Nat) (j : Investment) : Bool :=
  j.id == invId && j.userId == userId && j.type == InvestmentType.sip &&
    j.status == InvestmentStatus.paused

/-- The resume route: first SELECT frequency FROM investments WHERE
id = invId AND user_id = userId AND type = sip (no row: 404), then the
route computes getNextExecutionDate and runs UPDATE SET
status = active, next_execution_date = that value, updated_at = NOW()
under resumePred.  The SET list names updated_at, which the schema
lacks, so the statement is rejected, the catch of the route answers 500
and the store is unchanged.  The Bool result records whether the route
reported success. -/
def resumeInvestment (db : DB) (userId invId : Nat) (now : JSDate) :
    DB × Bool :=
  match db.investments.find? fun j =>
      j.id == invId && j.userId == userId && j.type == InvestmentType.sip with
  | none => (db, false)
  | some inv0 =>
    let next := getNextExecutionDate inv0.frequency now
    match runInvestmentsUpdate ["status", "next_execution_date", "updated_at"]
        (fun j => { j with
          status := InvestmentStatus.active
          nextExecutionDate := some next })
        (resumePred userId invId) db.investments with
    | some invs =>
        ({ db with investments := invs },
          db.investments.any (resumePred userId invId))
    | none => (db, false)

/-- The values supplied by the INSERT of the lumpsum branch of the
create route: type investment, status completed, and no tx_signature
and no trade_type in its column list (both none here).  This is the
attempted row, not a storable one: the NOT NULL constraint on
tx_signature rejects it. -/
def lumpsumInsertValues (invId fundId : Nat) (amount : ℚ) (now : Int) :
    TradeReplication :=
  { investmentId := invId
    fundId := fundId
    amount := amount
    type := TradeKind.investment
    status := TradeStatus.completed
    txSignature := none
    tradeType := none
    executedAt := now }

/-- An INSERT into trade_replications must satisfy the NOT NULL
constraint on tx_signature (declared TEXT NOT NULL with no default in
every schema variant of the repository): a statement that supplies no
signature is rejected and appends nothing. -/
def insertTradeReplication (trades : List TradeReplication)
    (row : TradeReplication) : Option (List TradeReplication) :=
  match row.txSignature with
  | some _ => some (trades ++ [row])
  | none => none

/-- The create-investment route: validate that the fund exists and is
active, enforce the minimum and optional maximum investment bounds,
require a frequency for sip, then INSERT the investment with status
active and next_execution_date = NOW() + 24 hours for sip and NULL for
lumpsum.  A lumpsum then attempts the immediate trade INSERT, which
supplies no tx_signature and is rejected by the NOT NULL constraint:
the catch answers 500 with the investment row already committed (each
statement auto-commits) and no ledger row.  The Option result is the
201 response body (none models a 4xx or 5xx response). -/
def createInvestment (db : DB) (userId fundId : Nat) (amount : ℚ)
    (ty : InvestmentType) (frequency : Option Frequency) (nowMs : Int)
    (newId : Nat) : DB × Option Investment :=
  match db.funds.find? fun f =>
      f.id == fundId && f.status == FundStatus.active with
  | none => (db, none)
  | some fund =>
    if amount < fund.minInvestment then (db, none)
    else if (match fund.maxInvestment with
        | some mx => decide (mx < amount)
        | none => false) then (db, none)
    else if ty == InvestmentType.sip && frequency == none then (db, none)
    else
      let inv : Investment :=
        { id := newId
          userId := userId
          fundId := fundId
          type := ty
          amount := amount
          frequency := frequency
          status := InvestmentStatus.active
          nextExecutionDate :=
            if ty == InvestmentType.sip then some (nowMs + msPerDay) else none }
      let db1 := { db with investments := db.investments ++ [inv] }
      if ty == InvestmentType.lumpsum then
        match insertTradeReplication db1.tradeReplications
            (lumpsumInsertValues newId fundId amount nowMs) with
        | some trades => ({ db1 with tradeReplications := trades }, some inv)
        | none => (db1, none)
      else (db1, some inv)

/-- The trade_replications row inserted by monitorFundTraderWallets for
one investment: type trade_replication, status completed, a random buy
or sell direction, and amount equal to the investment amount times a
random factor drawn from the interval from 0 up to but excluding 0.1
(the JavaScript expression amount times Math.random() times 0.1). -/
def mkReplicationRow (inv : Investment) (fundId : Nat) (r : ℚ)
    (dir : TradeDirection) (sig : String) (now : Int) : TradeReplication :=
  { investmentId := inv.id
    fundId := fundId
    amount := inv.amount * (r * (1 / 10))
    type := TradeKind.trade_replication
    status := TradeStatus.completed
    txSignature := some sig
    tradeType := some dir
    executedAt := now }

/-- The insertion loop of monitorFundTraderWallets over the active
investments of the fund, with k numbering iterations for the randomness
and signature oracles. -/
def replicateList (now : Int) (fundId : Nat) (amountRand : Nat → ℚ)
    (dirRand : Nat → TradeDirection) (sigs : Nat → String) (k : Nat)
    (db : DB) : List Investment → DB
  | [] => db
  | i :: rest =>
      replicateList now fundId amountRand dirRand sigs (k + 1)
        { db with
          tradeReplications := db.tradeReplications ++
            [mkReplicationRow i fundId (amountRand k) (dirRand k) (sigs k) now] }
        rest

/-- The SELECT of monitorFundTraderWallets: investments JOIN funds ON
i.fund_id = f.id WHERE f.id = fundId AND f.status = active AND
i.status = active. -/
def fundActiveInvestments (db : DB) (fundId : Nat) : List Investment :=
  db.investments.flatMap fun i =>
    if i.status == InvestmentStatus.active then
      (db.funds.filter fun f =>
          f.id == i.fundId && f.id == fundId &&
            f.status == FundStatus.active).map fun _ => i
    else []

/-- monitorFundTraderWallets for one fund: the activity flag models the
Math.random() < 0.1 coin flip; when it is set, one trade_replication
row is inserted for every active investment of the fund. -/
def monitorFundTraderWallets (db : DB) (now : Int) (activity : Bool)
    (amountRand : Nat → ℚ) (dirRand : Nat → TradeDirection)
    (sigs : Nat → String) (fund : Fund) : DB :=
  if activity then
    replicateList now fund.id amountRand dirRand sigs 0 db
      (fundActiveInvestments db fund.id)
  else db

/-- The fund loop of monitorTraderWallets: SELECT funds WHERE
status = active AND trader_wallet IS NOT NULL AND trader_wallet is not
the empty string, then monitor each fund in turn; the oracles are
indexed by the position of the fund in the selected list. -/
def monitorTraderWallets (db : DB) (now : Int) (activity : Nat → Bool)
    (amountRand : Nat → Nat → ℚ) (dirRand : Nat → Nat → TradeDirection)
    (sigs : Nat → Nat → String) : DB :=
  let eligible := db.funds.filter fun f =>
    f.status == FundStatus.active &&
      (match f.traderWallet with
        | some w => !(w == "")
        | none => false)
  (List.range eligible.length).foldl
    (fun acc k =>
      match eligible[k]? with
      | some f =>
          monitorFundTraderWallets acc now (activity k) (amountRand k)
            (dirRand k) (sigs k) f
      | none => acc)
    db

/-- The ledger rows appended by one processing loop over a batch,
starting at item counter k: one sip_execution row per item whose
investment has a known frequency and whose two statements both
succeed. -/
def newRowsOfF (now : Int) (sigs : Nat → String) (faults : SIPFaults) :
    Nat → List (Investment × Fund × User) → List TradeReplication
  | _, [] => []
  | k, r :: rest =>
      (match r.1.frequency with
        | none => []
        | some _ =>
            if faults.failUpdate k || faults.failInsert k then []
            else [mkSipRow r.1 (sigs k) now]) ++
        newRowsOfF now sigs faults (k + 1) rest

/-- A sample user for concrete evaluations. -/
def user1 : User := { id := 1, solanaWalletPubkey := "W1" }

/-- A sample active fund with a configured trader wallet. -/
def fund1 : Fund :=
  { id := 1, name := "Alpha", traderWallet := some "T1", minInvestment := 1,
    maxInvestment := none, status := FundStatus.active }

/-- A sample active daily recurring investment due at time 0. -/
def inv1 : Investment :=
  { id := 1, userId := 1, fundId := 1, type := InvestmentType.sip,
    amount := 100, frequency := some Frequency.daily,
    status := InvestmentStatus.active, nextExecutionDate := some 0 }

/-- A sample store with one user, one fund, one due investment and an
empty ledger. -/
def db1 : DB :=
  { users := [user1], funds := [fund1], investments := [inv1],
    tradeReplications := [] }

/-- A sample store with no rows at all. -/
def dbEmpty : DB :=
  { users := [], funds := [], investments := [], tradeReplications := [] }

/-- A constant signature oracle for concrete evaluations. -/
def sig0 : Nat → String := fun _ => "TX"

/-- A second sample investment, weekly and also due at time 0. -/
def inv2 : Investment :=
  { id := 2, userId := 1, fundId := 1, type := InvestmentType.sip,
    amount := 50, frequency := some Frequency.weekly,
    status := InvestmentStatus.active, nextExecutionDate := some 0 }

/-- A sample store with two due investments. -/
def db2 : DB :=
  { users := [user1], funds := [fund1], investments := [inv1, inv2],
    tradeReplications := [] }

/-- A fault map whose UPDATE statement throws on the first batch item
only. -/
def faults1 : SIPFaults := ⟨fun k => k == 0, fun _ => false⟩

/-- A paused monthly investment for concrete evaluations. -/
def invM : Investment :=
  { id := 3, userId := 1, fundId := 1, type := InvestmentType.sip,
    amount := 100, frequency := some Frequency.monthly,
    status := InvestmentStatus.paused, nextExecutionDate := none }

/-- A sample store holding the paused monthly investment. -/
def dbM : DB :=
  { users := [user1], funds := [fund1], investments := [invM],
    tradeReplications := [] }

/-- The instant 2021-02-01T00:00:00Z. -/
def feb1 : JSDate := { year := 2021, month := 2, day := 1, msOfDay := 0 }

/-- The ledger rows appended by the replication loop over a list of
investments, starting at iteration counter k. -/
def repRowsOf (now : Int) (fundId : Nat) (amountRand : Nat → ℚ)
    (dirRand : Nat → TradeDirection) (sigs : Nat → String) :
    Nat → List Investment → List TradeReplication
  | _, [] => []
  | k, i :: rest =>
      mkReplicationRow i fundId (amountRand k) (dirRand k) (sigs k) now ::
        repRowsOf now fundId amountRand dirRand sigs (k + 1) rest

/-- In a list whose keys are pairwise distinct, a filter whose
predicate forces the key of a known member is that single member. -/
lemma filter_eq_singleton_of_nodup_key {α : Type} (l : List α) (key : α → Nat)
    (hnd : (l.map key).Nodup) (x : α) (hx : x ∈ l) (p : α → Bool)
    (hpx : p x = true) (hkey : ∀ y, p y = true → key y = key x) :
    l.filter p = [x] := by
  induction l with
  | nil => cases hx
  | cons a t ih =>
    simp only [List.map_cons, List.nodup_cons] at hnd
    rcases List.mem_cons.mp hx with rfl | hxt
    · have ht : t.filter p = [] := by
        rw [List.filter_eq_nil_iff]
        intro y hy hpy
        exact hnd.1 (hkey y hpy ▸ List.mem_map_of_mem key hy)
      simp [List.filter_cons, hpx, ht]
    · have hpa : p a = false := by
        by_contra h
        have hpa' : p a = true := by
          cases hh : p a with
          | false => exact absurd hh h
          | true => rfl
        exact hnd.1 (hkey a hpa' ▸ List.mem_map_of_mem key hxt)
      simp only [List.filter_cons, hpa, Bool.false_eq_true, if_false]
      exact ih hnd.2 hxt

/-- The sum of a function over a duplicate-free list is one when the
function is one at a single member and zero elsewhere. -/
lemma sum_map_eq_one_of_single {α : Type} (l : List α) (g : α → Nat) (x : α)
    (hx : x ∈ l) (hnd : l.Nodup) (hgx : g x = 1)
    (h0 : ∀ y ∈ l, y ≠ x → g y = 0) : (l.map g).sum = 1 := by
  induction l with
  | nil => cases hx
  | cons a t ih =>
    rw [List.nodup_cons] at hnd
    rcases List.mem_cons.mp hx with rfl | hxt
    · have ht : ∀ y ∈ t, g y = 0 := fun y hy =>
        h0 y (List.mem_cons_of_mem _ hy) (fun hyx => hnd.1 (hyx ▸ hy))
      have : (t.map g).sum = 0 := by
        rw [List.sum_eq_zero_iff]
        intro n hn
        rcases List.mem_map.mp hn with ⟨y, hy, rfl⟩
        exact ht y hy
      simp [hgx, this]
    · have ha : g a = 0 :=
        h0 a (List.mem_cons_self a t) (fun hax => (hax ▸ hnd.1) hxt)
      simp only [List.map_cons, List.sum_cons, ha, Nat.zero_add]
      exact ih hxt hnd.2 (fun y hy => h0 y (List.mem_cons_of_mem _ hy))

/-- In an investments table with pairwise distinct ids, looking up the
id of a member row finds exactly that row. -/
lemma find?_id_eq_of_nodup (invs : List Investment)
    (hnd : (invs.map Investment.id).Nodup) (i : Investment)
    (hi : i ∈ invs) : invs.find? (fun j => j.id == i.id) = some i := by
  induction invs with
  | nil => cases hi
  | cons a t ih =>
    simp only [List.map_cons, List.nodup_cons] at hnd
    rcases List.mem_cons.mp hi with rfl | hit
    · exact List.find?_cons_of_pos _ (by simp)
    · have hne : a.id ≠ i.id := fun h =>
        hnd.1 (h ▸ List.mem_map_of_mem Investment.id hit)
      rw [List.find?_cons_of_neg _ (by simp [hne])]
      exact ih hnd.2 hit

/-- A row update that does not change ids commutes with lookup by
id. -/
lemma find?_id_map_update (invs : List Investment)
    (g : Investment → Investment) (p : Investment → Bool)
    (hg : ∀ j, (g j).id = j.id) (y : Nat) :
    (invs.map fun j => if p j then g j else j).find? (fun j => j.id == y) =
      (invs.find? (fun j => j.id == y)).map fun j => if p j then g j else j := by
  induction invs with
  | nil => simp
  | cons a t ih =>
    have hid : (if p a then g a else a).id = a.id := by
      by_cases hpa : p a = true <;> simp [hpa, hg]
    by_cases hya : a.id = y
    · rw [List.map_cons, List.find?_cons_of_pos _ (by simp [hid, hya]),
        List.find?_cons_of_pos _ (by simp [hya])]
      simp
    · rw [List.map_cons, List.find?_cons_of_neg _ (by simp [hid, hya]),
        List.find?_cons_of_neg _ (by simp [hya])]
      exact ih

/-- Unfolding of the investment-only due condition. -/
lemma dueInv_iff (now : Int) (i : Investment) :
    dueInv now i = true ↔
      i.type = InvestmentType.sip ∧
        (∃ t, i.nextExecutionDate = some t ∧ t ≤ now) ∧
        i.status = InvestmentStatus.active := by
  unfold dueInv
  cases h : i.nextExecutionDate with
  | none => simp [h]
  | some t => simp [h, Bool.and_assoc, and_assoc]

/-- Membership characterization of the join rows of one investment. -/
lemma mem_joinRows (db : DB) (i : Investment)
    (p : Investment × Fund × User) :
    p ∈ joinRows db i ↔
      ∃ f u, p = (i, f, u) ∧ f ∈ db.funds ∧ f.id = i.fundId ∧
        f.status = FundStatus.active ∧ u ∈ db.users ∧ u.id = i.userId := by
  unfold joinRows
  simp only [List.mem_flatMap, List.mem_map, List.mem_filter,
    Bool.and_eq_true, beq_iff_eq]
  constructor
  · rintro ⟨f, ⟨hf, hfid, hfst⟩, u, ⟨hu, huid⟩, rfl⟩
    exact ⟨f, u, rfl, hf, hfid, hfst, hu, huid⟩
  · rintro ⟨f, u, rfl, hf, hfid, hfst, hu, huid⟩
    exact ⟨f, ⟨hf, hfid, hfst⟩, u, ⟨hu, huid⟩, rfl⟩

/-- Every join row of an investment carries that investment as its
first component. -/
lemma fst_of_mem_joinRows (db : DB) (i : Investment)
    (p : Investment × Fund × User) (hp : p ∈ joinRows db i) : p.1 = i := by
  rcases (mem_joinRows db i p).mp hp with ⟨f, u, rfl, -⟩
  rfl

/-- Contract of the due-SIP selector: it returns exactly the recurring
active investments whose non-null next execution date has elapsed,
joined with their active fund and their owner. -/
lemma mem_selectDueSIPs (db : DB) (now : Int) (i : Investment) (f : Fund)
    (u : User) :
    (i, f, u) ∈ selectDueSIPs db now ↔
      i ∈ db.investments ∧ f ∈ db.funds ∧ u ∈ db.users ∧
        i.type = InvestmentType.sip ∧ i.status = InvestmentStatus.active ∧
        (∃ t, i.nextExecutionDate = some t ∧ t ≤ now) ∧
        f.id = i.fundId ∧ f.status = FundStatus.active ∧ u.id = i.userId := by
  unfold selectDueSIPs
  rw [List.mem_flatMap]
  constructor
  · rintro ⟨a, ha, hmem⟩
    by_cases hd : dueInv now a
    · rw [if_pos hd] at hmem
      rcases (mem_joinRows db a _).mp hmem with ⟨f', u', heq, hf, hfid, hfst, hu, huid⟩
      obtain ⟨rfl, rfl, rfl⟩ : a = i ∧ f' = f ∧ u' = u := by
        injection heq with h1 h2
        injection h2 with h2 h3
        exact ⟨h1.symm, h2.symm, h3.symm⟩
      rcases (dueInv_iff now a).mp hd with ⟨hty, hnext, hst⟩
      exact ⟨ha, hf, hu, hty, hst, hnext, hfid, hfst, huid⟩
    · rw [if_neg hd] at hmem
      cases hmem
  · rintro ⟨hi, hf, hu, hty, hst, hnext, hfid, hfst, huid⟩
    refine ⟨i, hi, ?_⟩
    rw [if_pos ((dueInv_iff now i).mpr ⟨hty, hnext, hst⟩)]
    exact (mem_joinRows db i _).mpr ⟨f, u, rfl, hf, hfid, hfst, hu, huid⟩

/-- Under the primary-key discipline, the join rows of a due
investment form the single row with its unique fund and owner. -/
lemma joinRows_eq_singleton (db : DB) (hwf : WF db) (i : Investment)
    (f : Fund) (u : User) (hf : f ∈ db.funds) (hfid : f.id = i.fundId)
    (hfst : f.status = FundStatus.active) (hu : u ∈ db.users)
    (huid : u.id = i.userId) : joinRows db i = [(i, f, u)] := by
  unfold joinRows
  rw [filter_eq_singleton_of_nodup_key db.funds Fund.id hwf.2.1 f hf _
      (by simp [hfid, hfst]) (fun y hy => by
        simp only [Bool.and_eq_true, beq_iff_eq] at hy
        rw [hy.1, hfid]),
    filter_eq_singleton_of_nodup_key db.users User.id hwf.2.2 u hu _
      (by simp [huid]) (fun y hy => by
        simp only [beq_iff_eq] at hy
        rw [hy, huid])]
  rfl

/-- Under the primary-key discipline, the selector emits exactly one
row whose investment id is that of any given selected investment. -/
lemma countP_id_selectDueSIPs (db : DB) (now : Int) (hwf : WF db)
    (i : Investment) (f : Fund) (u : User)
    (hmem : (i, f, u) ∈ selectDueSIPs db now) :
    (selectDueSIPs db now).countP (fun p => p.1.id == i.id) = 1 := by
  rcases (mem_selectDueSIPs db now i f u).mp hmem with
    ⟨hi, hf, hu, hty, hst, hnext, hfid, hfst, huid⟩
  unfold selectDueSIPs
  rw [List.countP_flatMap]
  apply sum_map_eq_one_of_single _ _ i hi (hwf.1.of_map)
  · show List.countP _ (if dueInv now i then joinRows db i else []) = 1
    rw [if_pos ((dueInv_iff now i).mpr ⟨hty, hnext, hst⟩),
      joinRows_eq_singleton db hwf i f u hf hfid hfst hu huid]
    simp
  · intro a ha hne
    show List.countP _ (if dueInv now a then joinRows db a else []) = 0
    have hid : a.id ≠ i.id := by
      intro h
      exact hne (List.inj_on_of_nodup_map hwf.1 ha hi h)
    by_cases hd : dueInv now a
    · rw [if_pos hd, List.countP_eq_zero]
      intro p hp
      rw [fst_of_mem_joinRows db a p hp]
      simp [hid]
    · rw [if_neg hd]
      rfl

/-- Any occurrence of a selected row in the selector output splits the
output into that row and two side lists free of its investment id. -/
lemma selectDueSIPs_decomp (db : DB) (now : Int) (hwf : WF db)
    (i : Investment) (f : Fund) (u : User)
    (hmem : (i, f, u) ∈ selectDueSIPs db now) :
    ∃ l1 l2, selectDueSIPs db now = l1 ++ (i, f, u) :: l2 ∧
      (∀ p ∈ l1, p.1.id ≠ i.id) ∧ (∀ p ∈ l2, p.1.id ≠ i.id) := by
  rcases List.append_of_mem hmem with ⟨l1, l2, hdec⟩
  refine ⟨l1, l2, hdec, ?_⟩
  have hcount := countP_id_selectDueSIPs db now hwf i f u hmem
  rw [hdec, List.countP_append, List.countP_cons] at hcount
  simp only [beq_self_eq_true, if_pos] at hcount
  have h1 : l1.countP (fun p => p.1.id == i.id) = 0 := by omega
  have h2 : l2.countP (fun p => p.1.id == i.id) = 0 := by omega
  rw [List.countP_eq_zero] at h1 h2
  constructor
  · intro p hp h
    exact h1 p hp (by simp [h])
  · intro p hp h
    exact h2 p hp (by simp [h])

/-- A single item of the loop only ever appends to the ledger. -/
lemma trades_processIndividualSIPf (db : DB) (now : Int) (sig : String)
    (fu fi : Bool) (inv : Investment) :
    (processIndividualSIPf db now sig fu fi inv).tradeReplications =
      db.tradeReplications ++
        (match inv.frequency with
          | none => []
          | some _ => if fu || fi then [] else [mkSipRow inv sig now]) := by
  unfold processIndividualSIPf
  cases inv.frequency with
  | none => simp
  | some freq => cases fu <;> cases fi <;> simp

/-- The ledger after one processing loop is the prior ledger followed by
the newly appended rows. -/
lemma trades_processSIPListf (now : Int) (sigs : Nat → String)
    (faults : SIPFaults) :
    ∀ (l : List (Investment × Fund × User)) (k : Nat) (db : DB),
      (processSIPListf now sigs faults k db l).tradeReplications =
        db.tradeReplications ++ newRowsOfF now sigs faults k l := by
  intro l
  induction l with
  | nil => intro k db; simp [processSIPListf, newRowsOfF]
  | cons r rest ih =>
      intro k db
      rw [processSIPListf, ih, trades_processIndividualSIPf]
      rw [newRowsOfF, List.append_assoc]

/-- The loop splits over a batch decomposition, shifting the item
counter. -/
lemma processSIPListf_append (now : Int) (sigs : Nat → String)
    (faults : SIPFaults) :
    ∀ (a b : List (Investment × Fund × User)) (k : Nat) (db : DB),
      processSIPListf now sigs faults k db (a ++ b) =
        processSIPListf now sigs faults (k + a.length)
          (processSIPListf now sigs faults k db a) b := by
  intro a
  induction a with
  | nil => intro b k db; simp [processSIPListf]
  | cons r rest ih =>
      intro b k db
      rw [List.cons_append, processSIPListf, processSIPListf, ih]
      congr 1
      simp only [List.length_cons]
      omega

/-- The appended rows split over a batch decomposition. -/
lemma newRowsOfF_append (now : Int) (sigs : Nat → String)
    (faults : SIPFaults) :
    ∀ (a b : List (Investment × Fund × User)) (k : Nat),
      newRowsOfF now sigs faults k (a ++ b) =
        newRowsOfF now sigs faults k a ++
          newRowsOfF now sigs faults (k + a.length) b := by
  intro a
  induction a with
  | nil => intro b k; simp [newRowsOfF]
  | cons r rest ih =>
      intro b k
      rw [List.cons_append, newRowsOfF, newRowsOfF, ih, List.append_assoc]
      congr 3
      simp only [List.length_cons]
      omega

/-- Every appended row originates from some batch item with a known
frequency and carries its investment data. -/
lemma mem_newRowsOfF (now : Int) (sigs : Nat → String) (faults : SIPFaults) :
    ∀ (l : List (Investment × Fund × User)) (k : Nat)
      (r : TradeReplication), r ∈ newRowsOfF now sigs faults k l →
      ∃ k' p, p ∈ l ∧ p.1.frequency.isSome ∧ r = mkSipRow p.1 (sigs k') now := by
  intro l
  induction l with
  | nil => intro k r hr; cases hr
  | cons q rest ih =>
      intro k r hr
      rw [newRowsOfF, List.mem_append] at hr
      rcases hr with hr | hr
      · refine ⟨k, q, List.mem_cons_self q rest, ?_⟩
        cases hq : q.1.frequency with
        | none => rw [hq] at hr; cases hr
        | some freq =>
            rw [hq] at hr
            by_cases hfk : faults.failUpdate k || faults.failInsert k
            · rw [if_pos hfk] at hr; cases hr
            · rw [if_neg hfk] at hr
              rcases List.mem_singleton.mp hr with rfl
              exact ⟨rfl, rfl⟩
      · rcases ih (k + 1) r hr with ⟨k', p, hp, hfreq, hrow⟩
        exact ⟨k', p, List.mem_cons_of_mem _ hp, hfreq, hrow⟩

/-- Fault-free count of appended rows matching one investment id: one
per batch item with that id and a known frequency. -/
lemma countP_newRowsOfF (now : Int) (sigs : Nat → String) :
    ∀ (l : List (Investment × Fund × User)) (k : Nat) (x : Nat),
      (newRowsOfF now sigs noFaults k l).countP
          (fun r => r.investmentId == x && r.type == TradeKind.sip_execution) =
        l.countP (fun p => p.1.id == x && p.1.frequency.isSome) := by
  intro l
  induction l with
  | nil => intro k x; rfl
  | cons q rest ih =>
      intro k x
      rw [newRowsOfF, List.countP_append, List.countP_cons, ih]
      cases hq : q.1.frequency with
      | none => simp [hq, mkSipRow]
      | some freq =>
          simp only [noFaults, Bool.or_self, if_neg Bool.false_ne_true]
          by_cases hx : q.1.id = x
          · simp [hq, mkSipRow, hx, Nat.add_comm]
          · simp [hq, mkSipRow, hx]

/-- A loop item whose investment id differs from y does not disturb the
lookup of y: the schedule update touches only its own id and the ledger
insert touches no investment row. -/
lemma find?_processIndividualSIPf_ne (db : DB) (now : Int) (sig : String)
    (fu fi : Bool) (inv : Investment) (y : Nat) (hne : inv.id ≠ y) :
    ((processIndividualSIPf db now sig fu fi inv).investments.find?
        fun j => j.id == y) =
      db.investments.find? fun j => j.id == y := by
  unfold processIndividualSIPf
  cases inv.frequency with
  | none => rfl
  | some freq =>
      cases fu with
      | true => rfl
      | false =>
          have hup : ((updateNextExec db.investments inv.id
                (now + period freq)).find? fun j => j.id == y) =
              db.investments.find? fun j => j.id == y := by
            unfold updateNextExec
            rw [find?_id_map_update db.investments
              (fun j => { j with nextExecutionDate := some (now + period freq) })
              (fun j => j.id == inv.id) (fun j => rfl) y]
            cases hfd : db.investments.find? fun j => j.id == y with
            | none => rfl
            | some j =>
                have hj : j.id = y := by
                  have := List.find?_some hfd
                  simpa using this
                simp [hj, hne.symm]
          cases fi <;> simpa using hup

/-- Processing the due item itself advances exactly its schedule: the
lookup of its id afterwards returns the row with the new next execution
date and all other columns unchanged. -/
lemma find?_processIndividualSIPf_self (db : DB) (now : Int) (sig : String)
    (inv : Investment) (freq : Frequency) (hfreq : inv.frequency = some freq)
    (hfind : db.investments.find? (fun j => j.id == inv.id) = some inv) :
    ((processIndividualSIPf db now sig false false inv).investments.find?
        fun j => j.id == inv.id) =
      some { inv with nextExecutionDate := some (now + period freq) } := by
  simp only [processIndividualSIPf, hfreq, if_neg Bool.false_ne_true]
  unfold updateNextExec
  rw [find?_id_map_update db.investments
    (fun j => { j with nextExecutionDate := some (now + period freq) })
    (fun j => j.id == inv.id) (fun j => rfl) inv.id, hfind]
  simp [hfreq]

/-- A loop over items whose ids all differ from y leaves the lookup of
y unchanged. -/
lemma find?_processSIPListf_ne (now : Int) (sigs : Nat → String)
    (faults : SIPFaults) :
    ∀ (l : List (Investment × Fund × User)) (k : Nat) (db : DB) (y : Nat),
      (∀ p ∈ l, p.1.id ≠ y) →
      ((processSIPListf now sigs faults k db l).investments.find?
          fun j => j.id == y) =
        db.investments.find? fun j => j.id == y := by
  intro l
  induction l with
  | nil => intro k db y _; rfl
  | cons q rest ih =>
      intro k db y hl
      rw [processSIPListf, ih _ _ _ (fun p hp => hl p (List.mem_cons_of_mem _ hp))]
      exact find?_processIndividualSIPf_ne _ _ _ _ _ _ _
        (hl q (List.mem_cons_self q rest))

/-- The frequency periods are positive. -/
lemma period_pos (freq : Frequency) : 0 < period freq := by
  cases freq <;> norm_num [period, msPerDay]

/-- Claim C2: for every active recurring investment with an active fund
and an elapsed non-null next execution date, one fault-free scheduler
cycle appends exactly one new sip_execution TradeReplication row, that
row has status completed and the investment amount, and the stored next
execution date becomes now plus the frequency period (24 hours, 7 days,
or a fixed 30 days), strictly past the previous value. -/
theorem sip_cycle_executes_each_due_investment_once (db : DB) (now : Int)
    (sigs : Nat → String) (hwf : WF db) (i : Investment) (f : Fund)
    (u : User) (hmem : (i, f, u) ∈ selectDueSIPs db now) (freq : Frequency)
    (hfreq : i.frequency = some freq) (prev : Int)
    (hprev : i.nextExecutionDate = some prev) :
    ((processSIPInvestments db now sigs).tradeReplications.drop
        db.tradeReplications.length).countP
        (fun r => r.investmentId == i.id &&
          r.type == TradeKind.sip_execution) = 1 ∧
      (∀ r ∈ (processSIPInvestments db now sigs).tradeReplications.drop
          db.tradeReplications.length,
        r.investmentId = i.id →
          r.type = TradeKind.sip_execution ∧
            r.status = TradeStatus.completed ∧ r.amount = i.amount) ∧
      ((processSIPInvestments db now sigs).investments.find?
          fun j => j.id == i.id) =
        some { i with nextExecutionDate := some (now + period freq) } ∧
      prev < now + period freq := by
  obtain ⟨l1, l2, hdec, hl1, hl2⟩ := selectDueSIPs_decomp db now hwf i f u hmem
  have hchar := (mem_selectDueSIPs db now i f u).mp hmem
  have htr : (processSIPInvestments db now sigs).tradeReplications =
      db.tradeReplications ++
        newRowsOfF now sigs noFaults 0 (selectDueSIPs db now) :=
    trades_processSIPListf now sigs noFaults _ 0 db
  have hdrop : (processSIPInvestments db now sigs).tradeReplications.drop
      db.tradeReplications.length =
      newRowsOfF now sigs noFaults 0 (selectDueSIPs db now) := by
    rw [htr, List.drop_left]
  refine ⟨?_, ?_, ?_, ?_⟩
  · rw [hdrop, countP_newRowsOfF, hdec, List.countP_append, List.countP_cons]
    have h1 : l1.countP (fun p => p.1.id == i.id && p.1.frequency.isSome) = 0 := by
      rw [List.countP_eq_zero]
      intro p hp
      simp [hl1 p hp]
    have h2 : l2.countP (fun p => p.1.id == i.id && p.1.frequency.isSome) = 0 := by
      rw [List.countP_eq_zero]
      intro p hp
      simp [hl2 p hp]
    rw [h1, h2]
    simp [hfreq]
  · rw [hdrop]
    intro r hr hid
    rcases mem_newRowsOfF now sigs noFaults _ 0 r hr with ⟨k', p, hp, hpf, rfl⟩
    have hpid : p.1.id = i.id := hid
    rw [hdec] at hp
    rcases List.mem_append.mp hp with hp1 | hp2
    · exact absurd hpid (hl1 p hp1)
    · rcases List.mem_cons.mp hp2 with heq | hp2
      · rw [heq]
        exact ⟨rfl, rfl, rfl⟩
      · exact absurd hpid (hl2 p hp2)
  · have hini : db.investments.find? (fun j => j.id == i.id) = some i :=
      find?_id_eq_of_nodup db.investments hwf.1 i hchar.1
    show ((processSIPListf now sigs noFaults 0 db
        (selectDueSIPs db now)).investments.find? fun j => j.id == i.id) = _
    rw [hdec, processSIPListf_append, processSIPListf,
      find?_processSIPListf_ne now sigs noFaults l2 _ _ _ hl2]
    have hmid : ((processSIPListf now sigs noFaults 0 db l1).investments.find?
        fun j => j.id == i.id) = some i := by
      rw [find?_processSIPListf_ne now sigs noFaults l1 0 db i.id hl1, hini]
    exact find?_processIndividualSIPf_self _ now _ i freq hfreq hmid
  · rcases hchar.2.2.2.2.2.1 with ⟨t, ht, htle⟩
    rw [hprev] at ht
    have hpt : prev = t := by injection ht
    have := period_pos freq
    omega

/-- Witness for claim C2: at the concrete store db1 the hypotheses hold
and the cycle at time 0 yields the claimed ledger and schedule state. -/
theorem sip_cycle_executes_each_due_investment_once_witness :
    WF db1 ∧
      (((processSIPInvestments db1 0 sig0).tradeReplications.drop
          db1.tradeReplications.length).countP
          (fun r => r.investmentId == inv1.id &&
            r.type == TradeKind.sip_execution) = 1 ∧
        (∀ r ∈ (processSIPInvestments db1 0 sig0).tradeReplications.drop
            db1.tradeReplications.length,
          r.investmentId = inv1.id →
            r.type = TradeKind.sip_execution ∧
              r.status = TradeStatus.completed ∧ r.amount = inv1.amount) ∧
        ((processSIPInvestments db1 0 sig0).investments.find?
            fun j => j.id == inv1.id) =
          some { inv1 with nextExecutionDate := some (0 + period Frequency.daily) } ∧
        (0 : Int) < 0 + period Frequency.daily) :=
  ⟨by decide,
    sip_cycle_executes_each_due_investment_once db1 0 sig0 (by decide)
      inv1 fund1 user1 (by decide) Frequency.daily rfl 0 rfl⟩

/-- Claim C6: the due-SIP selector returns exactly the recurring active
investments whose non-null next execution date has elapsed, each joined
with its owning fund (which must be active) and its owner, and an empty
selection leaves the store untouched by the cycle. -/
theorem selector_contract (db : DB) (now : Int) (sigs : Nat → String) :
    (∀ i f u, (i, f, u) ∈ selectDueSIPs db now ↔
      i ∈ db.investments ∧ f ∈ db.funds ∧ u ∈ db.users ∧
        i.type = InvestmentType.sip ∧ i.status = InvestmentStatus.active ∧
        (∃ t, i.nextExecutionDate = some t ∧ t ≤ now) ∧
        f.id = i.fundId ∧ f.status = FundStatus.active ∧ u.id = i.userId) ∧
      (selectDueSIPs db now = [] → processSIPInvestments db now sigs = db) := by
  refine ⟨mem_selectDueSIPs db now, ?_⟩
  intro h
  show processSIPListf now sigs noFaults 0 db (selectDueSIPs db now) = db
  rw [h]
  rfl

/-- Witness for claim C6: at a store with one due investment the
selector output is charaterized, and at the empty store the selection
is empty and the cycle is a no-op. -/
theorem selector_contract_witness :
    ((inv1, fund1, user1) ∈ selectDueSIPs db1 0 ↔
      inv1 ∈ db1.investments ∧ fund1 ∈ db1.funds ∧ user1 ∈ db1.users ∧
        inv1.type = InvestmentType.sip ∧
        inv1.status = InvestmentStatus.active ∧
        (∃ t, inv1.nextExecutionDate = some t ∧ t ≤ 0) ∧
        fund1.id = inv1.fundId ∧ fund1.status = FundStatus.active ∧
        user1.id = inv1.userId) ∧
      processSIPInvestments dbEmpty 0 sig0 = dbEmpty :=
  ⟨(selector_contract db1 0 sig0).1 inv1 fund1 user1,
    (selector_contract dbEmpty 0 sig0).2 (by decide)⟩

/-- Claim C9: the retention sweeper deletes exactly the ledger rows
whose execution timestamp is older than 90 days before now, touches no
other table, accounts for every deleted row in its returned count, and
is idempotent: an immediate second run at the same time deletes zero
rows and leaves the store unchanged. -/
theorem cleanup_deletes_exactly_old_rows_and_is_idempotent (db : DB)
    (now : Int) :
    (∀ r, r ∈ (cleanupOldTrades db now).1.tradeReplications ↔
      r ∈ db.tradeReplications ∧ ¬(r.executedAt < now - 90 * msPerDay)) ∧
      (cleanupOldTrades db now).1.users = db.users ∧
      (cleanupOldTrades db now).1.funds = db.funds ∧
      (cleanupOldTrades db now).1.investments = db.investments ∧
      (cleanupOldTrades db now).1.tradeReplications.length +
          (cleanupOldTrades db now).2 = db.tradeReplications.length ∧
      cleanupOldTrades (cleanupOldTrades db now).1 now =
        ((cleanupOldTrades db now).1, 0) := by
  refine ⟨?_, rfl, rfl, rfl, ?_, ?_⟩
  · intro r
    show r ∈ db.tradeReplications.filter _ ↔ _
    rw [List.mem_filter]
    simp
  · show (db.tradeReplications.filter _).length +
        (db.tradeReplications.filter _).length = _
    rw [← List.countP_eq_length_filter, ← List.countP_eq_length_filter]
    rw [Nat.add_comm]
    have := List.length_eq_countP_add_countP
      (fun r : TradeReplication => decide (r.executedAt < now - 90 * msPerDay))
      db.tradeReplications
    rw [this]
    congr 1
    apply List.countP_congr
    intro r _
    cases h : decide (r.executedAt < now - 90 * msPerDay) <;> simp [h]
  · unfold cleanupOldTrades
    simp only [List.filter_filter]
    rw [Prod.mk.injEq]
    refine ⟨?_, ?_⟩
    · congr 1
      apply List.filter_congr
      intro r _
      cases h : decide (r.executedAt < now - 90 * msPerDay) <;> simp [h]
    · rw [← List.countP_eq_length_filter, List.countP_eq_zero]
      intro r _
      cases h : decide (r.executedAt < now - 90 * msPerDay) <;> simp [h]

/-- In an investments table with pairwise distinct ids, a search whose
predicate pins the id of a member row finds exactly that row. -/
lemma find?_eq_of_nodup_key (invs : List Investment)
    (hnd : (invs.map Investment.id).Nodup) (i : Investment) (hi : i ∈ invs)
    (p : Investment → Bool) (hpi : p i = true)
    (hp : ∀ j, p j = true → j.id = i.id) : invs.find? p = some i := by
  induction invs with
  | nil => cases hi
  | cons a t ih =>
    simp only [List.map_cons, List.nodup_cons] at hnd
    rcases List.mem_cons.mp hi with rfl | hit
    · exact List.find?_cons_of_pos _ hpi
    · have hpa : p a = false := by
        cases hh : p a with
        | false => rfl
        | true =>
            exact absurd (hp a hh ▸ List.mem_map_of_mem Investment.id hit)
              hnd.1
      rw [List.find?_cons_of_neg _ (by simp [hpa])]
      exact ih hnd.2 hit

/-- A row update that does not change ids keeps the id column of the
table unchanged. -/
lemma map_id_map_update (invs : List Investment)
    (g : Investment → Investment) (p : Investment → Bool)
    (hg : ∀ j, (g j).id = j.id) :
    (invs.map fun j => if p j then g j else j).map Investment.id =
      invs.map Investment.id := by
  rw [List.map_map]
  apply List.map_congr_left
  intro j _
  by_cases h : p j = true <;> simp [h, hg]

/-- Claim C8: a fault inside one item of the due batch is caught at that
item boundary: any due item whose own two statements run fault-free
ends the cycle with its sip_execution ledger row appended and its
schedule advanced, whatever faults strike the other items of the same
cycle. -/
theorem sip_item_failure_never_blocks_others (db : DB) (now : Int)
    (sigs : Nat → String) (faults : SIPFaults) (hwf : WF db)
    (i : Investment) (f : Fund) (u : User)
    (l1 l2 : List (Investment × Fund × User))
    (hdec : selectDueSIPs db now = l1 ++ (i, f, u) :: l2)
    (freq : Frequency) (hfreq : i.frequency = some freq)
    (hfu : faults.failUpdate l1.length = false)
    (hfi : faults.failInsert l1.length = false) :
    mkSipRow i (sigs l1.length) now ∈
        (processSIPInvestmentsf db now sigs faults).tradeReplications ∧
      ((processSIPInvestmentsf db now sigs faults).investments.find?
          fun j => j.id == i.id) =
        some { i with nextExecutionDate := some (now + period freq) } := by
  have hmem : (i, f, u) ∈ selectDueSIPs db now := by
    rw [hdec]
    exact List.mem_append.mpr (Or.inr (List.mem_cons_self _ _))
  have hcount := countP_id_selectDueSIPs db now hwf i f u hmem
  rw [hdec, List.countP_append, List.countP_cons] at hcount
  simp only [beq_self_eq_true, if_pos] at hcount
  have h1 : ∀ p ∈ l1, p.1.id ≠ i.id := by
    have h0 : l1.countP (fun p => p.1.id == i.id) = 0 := by omega
    rw [List.countP_eq_zero] at h0
    intro p hp h
    exact h0 p hp (by simp [h])
  have h2 : ∀ p ∈ l2, p.1.id ≠ i.id := by
    have h0 : l2.countP (fun p => p.1.id == i.id) = 0 := by omega
    rw [List.countP_eq_zero] at h0
    intro p hp h
    exact h0 p hp (by simp [h])
  have hchar := (mem_selectDueSIPs db now i f u).mp hmem
  constructor
  · have htr : (processSIPInvestmentsf db now sigs faults).tradeReplications =
        db.tradeReplications ++
          newRowsOfF now sigs faults 0 (selectDueSIPs db now) :=
      trades_processSIPListf now sigs faults _ 0 db
    rw [htr, hdec, newRowsOfF_append, newRowsOfF, Nat.zero_add, hfreq,
      hfu, hfi]
    simp only [Bool.or_self, if_neg Bool.false_ne_true]
    simp [List.mem_append]
  · have hini : db.investments.find? (fun j => j.id == i.id) = some i :=
      find?_id_eq_of_nodup db.investments hwf.1 i hchar.1
    show ((processSIPListf now sigs faults 0 db
        (selectDueSIPs db now)).investments.find? fun j => j.id == i.id) = _
    rw [hdec, processSIPListf_append, processSIPListf,
      find?_processSIPListf_ne now sigs faults l2 _ _ _ h2, Nat.zero_add,
      hfu, hfi]
    have hmid : ((processSIPListf now sigs faults 0 db l1).investments.find?
        fun j => j.id == i.id) = some i := by
      rw [find?_processSIPListf_ne now sigs faults l1 0 db i.id h1, hini]
    exact find?_processIndividualSIPf_self _ now _ i freq hfreq hmid

/-- Witness for claim C8: in a two-item batch whose first item fails,
the second item is still fully processed. -/
theorem sip_item_failure_never_blocks_others_witness :
    mkSipRow inv2 (sig0 1) 0 ∈
        (processSIPInvestmentsf db2 0 sig0 faults1).tradeReplications ∧
      ((processSIPInvestmentsf db2 0 sig0 faults1).investments.find?
          fun j => j.id == inv2.id) =
        some { inv2 with nextExecutionDate := some (0 + period Frequency.weekly) } :=
  sip_item_failure_never_blocks_others db2 0 sig0 faults1 (by decide)
    inv2 fund1 user1 [(inv1, fund1, user1)] [] (by decide) Frequency.weekly
    rfl rfl rfl

/-- Claim C1: the schedule UPDATE and the ledger INSERT of
processIndividualSIP are two separate auto-commit statements with no
enclosing transaction, so an INSERT failure right after the UPDATE
leaves the schedule advanced with no matching ledger row.  Concretely:
at store db1 and time 0 with the INSERT throwing, the next execution
date of the due investment moves to 86400000 while the ledger stays
empty. -/
theorem sip_executor_not_atomic :
    ((processIndividualSIPf db1 0 "TX" false true inv1).investments.find?
        fun j => j.id == inv1.id) =
      some { inv1 with nextExecutionDate := some (86400000 : Int) } ∧
      (processIndividualSIPf db1 0 "TX" false true inv1).tradeReplications
        = [] := by
  decide

/-- Claim C5: the selector takes no row lock and the executor performs
no versioned update, so two overlapping invocations that both run their
SELECT before either processes an item each advance the same due
investment and each append a ledger row: the ledger gains two
sip_execution rows for one due cycle instead of at most one. -/
theorem overlapping_cycles_double_process :
    ((runTwoOverlappingCycles db1 0 sig0 sig0).tradeReplications.countP
      fun r => r.investmentId == inv1.id &&
        r.type == TradeKind.sip_execution) = 2 := by
  decide

/-- Stepping to the next calendar month strictly increases the civil
day number, whatever the year, month and (possibly out-of-range) day of
month. -/
lemma daysFromCivil_next_month_gt (y m d : Nat) (hy : 1 ≤ y)
    (hm1 : 1 ≤ m) (hm2 : m ≤ 12) (hd : 1 ≤ d) :
    daysFromCivil y m d <
      daysFromCivil (if m = 12 then y + 1 else y)
        (if m = 12 then 1 else m + 1) d := by
  unfold daysFromCivil
  interval_cases m <;> simp_all <;> omega

/-- The JavaScript one-month step always lands strictly after the
original instant. -/
lemma jsAddOneMonth_gt (dt : JSDate) (hy : 1 ≤ dt.year)
    (hm1 : 1 ≤ dt.month) (hm2 : dt.month ≤ 12) (hd : 1 ≤ dt.day) :
    toMs dt < jsAddOneMonth dt := by
  unfold jsAddOneMonth toMs
  simp only [msPerDay]
  have h := daysFromCivil_next_month_gt dt.year dt.month dt.day hy hm1 hm2 hd
  omega

/-- A bind whose blocks are either the singleton of the element itself
or empty is a filter. -/
lemma flatMap_singleton_eq_filter {α : Type} (l : List α) (p : α → Bool)
    (blk : α → List α) (hblk : ∀ a ∈ l, blk a = if p a then [a] else []) :
    l.flatMap blk = l.filter p := by
  induction l with
  | nil => rfl
  | cons a t ih =>
      rw [List.flatMap_cons, hblk a (List.mem_cons_self a t),
        ih (fun b hb => hblk b (List.mem_cons_of_mem _ hb)), List.filter_cons]
      by_cases h : p a = true <;> simp [h]

/-- Under the primary-key discipline, the monitor SELECT for an active
member fund is exactly the list of active investments of that fund. -/
lemma fundActiveInvestments_eq (db : DB) (hwf : WF db) (fund : Fund)
    (hf : fund ∈ db.funds) (hst : fund.status = FundStatus.active) :
    fundActiveInvestments db fund.id =
      db.investments.filter fun i2 =>
        i2.fundId == fund.id && i2.status == InvestmentStatus.active := by
  unfold fundActiveInvestments
  apply flatMap_singleton_eq_filter
  intro a _
  by_cases hsa : a.status = InvestmentStatus.active
  · by_cases hfa : a.fundId = fund.id
    · rw [if_pos (by simp [hsa]),
        filter_eq_singleton_of_nodup_key db.funds Fund.id hwf.2.1 fund hf _
          (by simp [hfa, hst])
          (fun y hy => by
            simp only [Bool.and_eq_true, beq_iff_eq] at hy
            exact hy.1.2),
        if_pos (by simp [hsa, hfa])]
      rfl
    · rw [if_pos (by simp [hsa]), if_neg (by simp [hfa])]
      have : db.funds.filter (fun f => f.id == a.fundId && f.id == fund.id &&
          f.status == FundStatus.active) = [] := by
        rw [List.filter_eq_nil_iff]
        intro y _ hy
        simp only [Bool.and_eq_true, beq_iff_eq] at hy
        exact hfa (hy.1.1 ▸ hy.1.2)
      rw [this]
      rfl
  · rw [if_neg (by simp [hsa]), if_neg (by simp [hsa])]

/-- The ledger after the replication loop is the prior ledger followed
by one row per listed investment. -/
lemma trades_replicateList (now : Int) (fundId : Nat) (amountRand : Nat → ℚ)
    (dirRand : Nat → TradeDirection) (sigs : Nat → String) :
    ∀ (l : List Investment) (k : Nat) (db : DB),
      (replicateList now fundId amountRand dirRand sigs k db l).tradeReplications =
        db.tradeReplications ++ repRowsOf now fundId amountRand dirRand sigs k l := by
  intro l
  induction l with
  | nil => intro k db; simp [replicateList, repRowsOf]
  | cons i rest ih =>
      intro k db
      rw [replicateList, ih, repRowsOf, List.append_assoc, List.singleton_append]

/-- One appended row per listed investment. -/
lemma length_repRowsOf (now : Int) (fundId : Nat) (amountRand : Nat → ℚ)
    (dirRand : Nat → TradeDirection) (sigs : Nat → String) :
    ∀ (l : List Investment) (k : Nat),
      (repRowsOf now fundId amountRand dirRand sigs k l).length = l.length := by
  intro l
  induction l with
  | nil => intro k; rfl
  | cons i rest ih => intro k; rw [repRowsOf, List.length_cons, ih, List.length_cons]

/-- The appended row at position n replicates the investment at
position n. -/
lemma getElem?_repRowsOf (now : Int) (fundId : Nat) (amountRand : Nat → ℚ)
    (dirRand : Nat → TradeDirection) (sigs : Nat → String) :
    ∀ (l : List Investment) (k n : Nat),
      (repRowsOf now fundId amountRand dirRand sigs k l)[n]? =
        l[n]?.map fun i2 => mkReplicationRow i2 fundId (amountRand (k + n))
          (dirRand (k + n)) (sigs (k + n)) now := by
  intro l
  induction l with
  | nil => intro k n; simp [repRowsOf]
  | cons i rest ih =>
      intro k n
      cases n with
      | zero => simp [repRowsOf]
      | succ n =>
          rw [repRowsOf, List.getElem?_cons_succ, List.getElem?_cons_succ, ih]
          have : k + 1 + n = k + (n + 1) := by omega
          rw [this]

/-- Claim C7: with activity detected on an active fund, the monitor
appends exactly one trade_replication ledger row per active investment
of that fund, each completed, with a buy or sell direction, and with a
nonnegative amount of at most one tenth of — in particular not
exceeding — the amount of its investment. -/
theorem monitor_one_row_per_active_investment (db : DB) (now : Int)
    (amountRand : Nat → ℚ) (dirRand : Nat → TradeDirection)
    (sigs : Nat → String) (fund : Fund) (hwf : WF db) (hf : fund ∈ db.funds)
    (hst : fund.status = FundStatus.active)
    (hr : ∀ k, 0 ≤ amountRand k ∧ amountRand k < 1)
    (hamt : ∀ i2 ∈ db.investments, 0 ≤ i2.amount) :
    ((monitorFundTraderWallets db now true amountRand dirRand sigs
        fund).tradeReplications.drop db.tradeReplications.length).length =
      (db.investments.filter fun i2 => i2.fundId == fund.id &&
        i2.status == InvestmentStatus.active).length ∧
      ∀ (n : Nat) (i2 : Investment),
        (db.investments.filter fun a => a.fundId == fund.id &&
          a.status == InvestmentStatus.active)[n]? = some i2 →
        ∃ r, ((monitorFundTraderWallets db now true amountRand dirRand sigs
            fund).tradeReplications.drop db.tradeReplications.length)[n]? =
            some r ∧
          r.investmentId = i2.id ∧ r.type = TradeKind.trade_replication ∧
          r.status = TradeStatus.completed ∧
          (r.tradeType = some TradeDirection.buy ∨
            r.tradeType = some TradeDirection.sell) ∧
          0 ≤ r.amount ∧ r.amount ≤ i2.amount := by
  have hrows : (monitorFundTraderWallets db now true amountRand dirRand sigs
      fund).tradeReplications.drop db.tradeReplications.length =
      repRowsOf now fund.id amountRand dirRand sigs 0
        (db.investments.filter fun i2 => i2.fundId == fund.id &&
          i2.status == InvestmentStatus.active) := by
    show (replicateList now fund.id amountRand dirRand sigs 0 db
        (fundActiveInvestments db fund.id)).tradeReplications.drop
        db.tradeReplications.length = _
    rw [trades_replicateList, List.drop_left,
      fundActiveInvestments_eq db hwf fund hf hst]
  refine ⟨by rw [hrows, length_repRowsOf], ?_⟩
  intro n i2 hn
  rw [hrows, getElem?_repRowsOf, hn, Nat.zero_add]
  refine ⟨_, rfl, rfl, rfl, rfl, ?_, ?_, ?_⟩
  · cases dirRand n with
    | buy => exact Or.inl rfl
    | sell => exact Or.inr rfl
  · exact mul_nonneg
      (hamt i2 (List.mem_of_mem_filter (List.getElem?_mem hn)))
      (mul_nonneg (hr n).1 (by norm_num))
  · apply mul_le_of_le_one_right
      (hamt i2 (List.mem_of_mem_filter (List.getElem?_mem hn)))
    nlinarith [(hr n).1, (hr n).2]

/-- Witness for claim C7: at db1 with activity detected, a half unit
random factor and a buy direction, the monitor appends exactly one row
for the single active investment and its amount stays within bounds. -/
theorem monitor_one_row_per_active_investment_witness :
    ((monitorFundTraderWallets db1 0 true (fun _ => 1 / 2)
        (fun _ => TradeDirection.buy) sig0
        fund1).tradeReplications.drop db1.tradeReplications.length).length =
      (db1.investments.filter fun i2 => i2.fundId == fund1.id &&
        i2.status == InvestmentStatus.active).length ∧
      ∀ (n : Nat) (i2 : Investment),
        (db1.investments.filter fun a => a.fundId == fund1.id &&
          a.status == InvestmentStatus.active)[n]? = some i2 →
        ∃ r, ((monitorFundTraderWallets db1 0 true (fun _ => 1 / 2)
            (fun _ => TradeDirection.buy) sig0
            fund1).tradeReplications.drop db1.tradeReplications.length)[n]? =
            some r ∧
          r.investmentId = i2.id ∧ r.type = TradeKind.trade_replication ∧
          r.status = TradeStatus.completed ∧
          (r.tradeType = some TradeDirection.buy ∨
            r.tradeType = some TradeDirection.sell) ∧
          0 ≤ r.amount ∧ r.amount ≤ i2.amount :=
  monitor_one_row_per_active_investment db1 0 (fun _ => 1 / 2)
    (fun _ => TradeDirection.buy) sig0 fund1 (by decide) (by decide) rfl
    (fun k => ⟨by norm_num, by norm_num⟩) (by decide)

/-- Claim C3: the pause route UPDATE sets status and also updated_at,
a column no migration of the repository creates, so the statement is
rejected by the store and the route answers 500: pausing the active
due recurring investment of db1 changes nothing — the row stays
active, keeps its non-null next execution date, and is still returned
by the next due selection, so pause neither nulls the schedule nor
preserves the claimed invariant semantics. -/
theorem pause_update_rejected_leaves_row_active :
    pauseInvestment db1 1 1 = (db1, false) ∧
      (inv1, fund1, user1) ∈ selectDueSIPs (pauseInvestment db1 1 1).1 0 := by
  decide

/-- Claim C4: the resume route UPDATE also sets the nonexistent
updated_at column and is always rejected, so resume never stores a new
next execution date: resuming the paused monthly investment of dbM at
2021-02-01T00:00Z leaves the store unchanged and answers 500.
Moreover the value the route computes before the failing UPDATE is the
calendar-month step 1614556800000 (2021-03-01, 28 days ahead), not the
claimed now plus 30 days, which is 1614729600000. -/
theorem resume_update_rejected_and_monthly_is_calendar :
    resumeInvestment dbM 1 3 feb1 = (dbM, false) ∧
      getNextExecutionDate invM.frequency feb1 = 1614556800000 ∧
      jsAddOneMonth feb1 = 1614556800000 ∧
      toMs feb1 + 30 * msPerDay = 1614729600000 := by
  decide

/-- Claim C10: a new recurring investment stores an initial next
execution date of creation time plus 24 hours whatever its frequency —
here a monthly SIP — and appends no ledger row; but the lumpsum branch
attempts its immediate trade INSERT without tx_signature, which the
NOT NULL constraint rejects, so the route answers 500 with the
investment row already committed (null schedule) and no investment-kind
ledger row is ever created. -/
theorem create_lumpsum_ledger_insert_rejected :
    ((createInvestment db1 1 1 100 InvestmentType.sip
        (some Frequency.monthly) 0 2).1.investments =
      db1.investments ++ [{
        id := 2
        userId := 1
        fundId := 1
        type := InvestmentType.sip
        amount := 100
        frequency := some Frequency.monthly
        status := InvestmentStatus.active
        nextExecutionDate := some 86400000 }] ∧
      (createInvestment db1 1 1 100 InvestmentType.sip
        (some Frequency.monthly) 0 2).1.tradeReplications =
        db1.tradeReplications ∧
      (createInvestment db1 1 1 100 InvestmentType.sip
        (some Frequency.monthly) 0 2).2 ≠ none) ∧
      ((createInvestment db1 1 1 100 InvestmentType.lumpsum none 0 2).1.investments =
        db1.investments ++ [{
          id := 2
          userId := 1
          fundId := 1
          type := InvestmentType.lumpsum
          amount := 100
          frequency := none
          status := InvestmentStatus.active
          nextExecutionDate := none }] ∧
        (createInvestment db1 1 1 100 InvestmentType.lumpsum
          none 0 2).1.tradeReplications = db1.tradeReplications ∧
        (createInvestment db1 1 1 100 InvestmentType.lumpsum none 0 2).2 =
          none) := by
  decide

end PumpFunds
